import Mathlib

/-!
Shallow embedding of the function-calling chat backend
(`backend/app/services/gemini_service.py`, `backend/app/services/tools.py`,
`backend/app/models/chat.py`).

Conventions of the embedding:
* Python dict-valued JSON data is `PyVal` / `PyDict` (an association list).
* Provider (`client.models.generate_content`) responses are modelled as a
  script indexed by invocation number: `provider : Nat → List Part`.
  An empty part list stands for the Python-falsy case
  `not (response.candidates and response.candidates[0].content.parts)`.
* Tool implementations may fail (Python exceptions) and are modelled as
  `PyDict → Except String PyVal`; `execute_function` is parametric in the
  registry mapping, exactly as the Python method only consults
  `self.functions`.
* `raise GeminiServiceError` is modelled as `Except.error`.
-/

namespace Backend

/-- JSON-like Python value, as carried in tool arguments and results. -/
inductive PyVal : Type where
  | none : PyVal
  | bool : Bool → PyVal
  | int : Int → PyVal
  | str : String → PyVal
  | list : List PyVal → PyVal
  | dict : List (String × PyVal) → PyVal

/-- A Python dict with string keys (association list, later bindings win). -/
abbrev PyDict : Type := List (String × PyVal)

/-- One SDK content part (`google.genai.types.Part`): text, inline binary
data, a model-emitted function call, or a function response. -/
inductive Part : Type where
  | text : String → Part
  | fromBytes : List Nat → String → Part
  | functionCall : String → PyDict → Part
  | functionResponse : String → PyDict → Part

/-- One SDK content entry (`types.Content`): a role plus ordered parts. -/
structure Content : Type where
  role : String
  parts : List Part

/-- `FileAttachment` from `app/models/chat.py`. -/
structure FileAttachment : Type where
  id : String
  name : String
  size : Nat
  mime_type : String
  type : String

/-- `ChatMessage` from `app/models/chat.py` (fields used by the service). -/
structure ChatMessage : Type where
  role : String
  content : String
  attachments : List FileAttachment

/-- A FastAPI `UploadFile` as consumed by the service: filename, the bytes
read from it, and its content type. An empty filename models a falsy
`file.filename`; an empty content type models a missing `content_type`. -/
structure UploadedFile : Type where
  filename : String
  content : List Nat
  content_type : String

/-- Python `str.strip()` (whitespace from both ends), written over the
character list so that it evaluates inside the kernel. -/
def py_strip (s : String) : String :=
  String.mk (((s.data.dropWhile Char.isWhitespace).reverse.dropWhile
    Char.isWhitespace).reverse)

/-- Python `str.startswith(pre)`, written over the character lists so that
it evaluates inside the kernel. -/
def py_startswith (s pre : String) : Bool :=
  pre.data.isPrefixOf s.data

/-- Python dict lookup on an association list: the latest binding wins. -/
def map_lookup {α : Type} : List (String × α) → String → Option α
  | [], _ => Option.none
  | (k, v) :: rest, key =>
    match map_lookup rest key with
    | Option.some r => Option.some r
    | Option.none => if k = key then Option.some v else Option.none

/-- The `file_content_map` built at the start of
`get_chat_response_with_functions`: one entry per uploaded file with a
truthy filename, mapping it to `(content, content_type)`. -/
def build_file_map (files : List UploadedFile) : List (String × (List Nat × String)) :=
  files.foldl
    (fun m f => if f.filename = "" then m else m ++ [(f.filename, (f.content, f.content_type))])
    []

/-- The parts computed for one history message inside
`_format_conversation_history`: a text part when `msg.content` is truthy,
then one `from_bytes` part per attachment whose name is in the file map. -/
def message_parts (fmap : List (String × (List Nat × String))) (msg : ChatMessage) :
    List Part :=
  (if msg.content = "" then [] else [Part.text msg.content]) ++
    msg.attachments.filterMap
      (fun a => (map_lookup fmap a.name).map (fun cm => Part.fromBytes cm.1 cm.2))

/-- The attachment names recorded into `processed_filenames` for one
history message. -/
def matched_names (fmap : List (String × (List Nat × String))) (msg : ChatMessage) :
    List String :=
  msg.attachments.filterMap
    (fun a => if (map_lookup fmap a.name).isSome then Option.some a.name else Option.none)

/-- The optional content entry produced for one history message: skipped
when it resolves to zero parts, else role-mapped (`user`→`user`,
anything else→`model`) with its parts. -/
def format_message (fmap : List (String × (List Nat × String))) (msg : ChatMessage) :
    Option Content :=
  if (message_parts fmap msg).isEmpty then Option.none
  else Option.some ⟨if msg.role = "user" then "user" else "model", message_parts fmap msg⟩

/-- `_format_conversation_history`: formatted content entries plus the set
of consumed filenames (modelled as a list, only membership is ever used). -/
def format_conversation_history (fmap : List (String × (List Nat × String))) :
    List ChatMessage → List Content × List String
  | [] => ([], [])
  | msg :: rest =>
    let r := format_conversation_history fmap rest
    ((match format_message fmap msg with
      | Option.none => r.1
      | Option.some c => c :: r.1),
     matched_names fmap msg ++ r.2)

/-- `max_size = 10 * 1024 * 1024` from the new-attachment size check. -/
def max_file_size : Nat := 10 * 1024 * 1024

/-- The per-new-file loop of `get_chat_response_with_functions`
(lines 305-321): skip files with falsy or already-consumed filenames;
size-check the mapped content (raising on >10MB); append a binary part
only for `image/` or `audio/` content types, silently skipping others.
The map lookup cannot miss for a truthy filename, so a dummy default
stands in for the impossible `KeyError` branch. -/
def process_new_files (fmap : List (String × (List Nat × String)))
    (processed : List String) : List UploadedFile → Except String (List Part)
  | [] => Except.ok []
  | f :: rest =>
    if f.filename ≠ "" ∧ f.filename ∉ processed then
      let cm := (map_lookup fmap f.filename).getD ([], "")
      if cm.1.length > max_file_size then
        Except.error ("File " ++ f.filename ++ " exceeds maximum size of " ++
          toString max_file_size ++ " bytes")
      else
        match process_new_files fmap processed rest with
        | Except.error e => Except.error e
        | Except.ok parts =>
          if py_startswith cm.2 "image/" || py_startswith cm.2 "audio/" then
            Except.ok (Part.fromBytes cm.1 cm.2 :: parts)
          else
            Except.ok parts
    else
      process_new_files fmap processed rest

/-- `user_parts`: the new message text followed by the accepted new
attachments. -/
def build_user_parts (message : String) (fmap : List (String × (List Nat × String)))
    (processed : List String) (files : List UploadedFile) : Except String (List Part) :=
  (process_new_files fmap processed files).map (fun ps => Part.text message :: ps)

/-- Allowed MIME types of `FileAttachment.validate_mime_type`. -/
def allowed_mime_types : List String :=
  ["image/jpeg", "image/png", "image/gif", "image/webp",
   "audio/mpeg", "audio/wav", "audio/mp3", "audio/m4a", "audio/webm"]

/-- Construction of a `FileAttachment` through its pydantic validators
(`validate_size` then `validate_mime_type`); a validator raising is an
`Except.error`. -/
def mk_file_attachment (id name : String) (size : Nat) (mime_type ty : String) :
    Except String FileAttachment :=
  if size > max_file_size then
    Except.error ("File size exceeds maximum limit of " ++ toString max_file_size ++ " bytes")
  else if mime_type ∉ allowed_mime_types then
    Except.error ("Unsupported MIME type: " ++ mime_type)
  else
    Except.ok ⟨id, name, size, mime_type, ty⟩

/-- A registered tool implementation: it may raise (`Except.error`). -/
abbrev ToolImpl : Type := PyDict → Except String PyVal

/-- `FunctionTools.execute_function`: look the name up in `self.functions`;
unknown names yield an error dict (not a raise); a raising implementation
is caught and converted to `{"success": False, "error": str(e)}`; success
yields `{"success": True, "result": result}`. Total: it never raises. -/
def execute_function (functions : List (String × ToolImpl))
    (function_name : String) (parameters : PyDict) : PyDict :=
  match map_lookup functions function_name with
  | Option.none =>
    [("error", PyVal.str ("Function \x27" ++ function_name ++ "\x27 not found"))]
  | Option.some f =>
    match f parameters with
    | Except.ok result => [("success", PyVal.bool true), ("result", result)]
    | Except.error e => [("success", PyVal.bool false), ("error", PyVal.str e)]

/-- Modelled from the spec: a `ToolExecutionResult` is error-tagged when it
carries an `error` entry. -/
def error_tagged (d : PyDict) : Prop := ∃ v, ("error", v) ∈ d

/-- The model-emitted function call carried by a part, when present
(`hasattr(part, 'function_call') and part.function_call`). -/
def part_function_call : Part → Option (String × PyDict)
  | Part.functionCall n a => Option.some (n, a)
  | _ => Option.none

/-- The truthy text carried by a part, when present
(`hasattr(part, 'text') and part.text`): empty text is Python-falsy. -/
def part_text : Part → Option String
  | Part.text t => if t = "" then Option.none else Option.some t
  | _ => Option.none

/-- `function_calls_in_response` for one model turn. -/
def turn_function_calls (parts : List Part) : List (String × PyDict) :=
  parts.filterMap part_function_call

/-- `text_parts` for one model turn. -/
def turn_texts (parts : List Part) : List String :=
  parts.filterMap part_text

/-- One entry of `function_calls_made`. -/
structure FunctionCallRecord : Type where
  name : String
  arguments : PyDict
  result : PyDict

/-- The records appended to `function_calls_made` for one model turn. -/
def turn_records (exec : String → PyDict → PyDict) (parts : List Part) :
    List FunctionCallRecord :=
  (turn_function_calls parts).map (fun fc => ⟨fc.1, fc.2, exec fc.1 fc.2⟩)

/-- The records accumulated over `n` consecutive all-tool-call turns
starting at invocation index `idx`. -/
def records_range (provider : Nat → List Part) (exec : String → PyDict → PyDict) :
    Nat → Nat → List FunctionCallRecord
  | _, 0 => []
  | idx, n + 1 =>
    turn_records exec (provider idx) ++ records_range provider exec (idx + 1) n

/-- Observable outcome of the `for call_count in range(max_function_calls)`
loop: the `response_parts` list, the `function_calls_made` list, and the
number of `generate_content` invocations performed. -/
structure LoopOut : Type where
  response_parts : List String
  function_calls_made : List FunctionCallRecord
  invocations : Nat

/-- The orchestrator loop of `get_chat_response_with_functions`
(lines 341-431). `fuel` is the remaining iteration budget, `idx` the number
of provider invocations already made, `contents` the accumulated
conversation, `records` the accumulated `function_calls_made`. -/
def run_loop (provider : Nat → List Part) (exec : String → PyDict → PyDict) :
    Nat → Nat → List Content → List FunctionCallRecord → LoopOut
  | 0, _, _, records => ⟨[], records, 0⟩
  | fuel + 1, idx, contents, records =>
    let parts := provider idx
    if parts.isEmpty then
      ⟨[], records, 1⟩
    else
      let fcs := turn_function_calls parts
      if fcs.isEmpty then
        ⟨turn_texts parts, records, 1⟩
      else
        let executed := fcs.map (fun fc => (fc.1, fc.2, exec fc.1 fc.2))
        let contents2 := contents ++
          [⟨"model", parts⟩,
           ⟨"user", executed.map (fun e => Part.functionResponse e.1 e.2.2)⟩]
        let out := run_loop provider exec fuel (idx + 1) contents2
          (records ++ executed.map (fun e => ⟨e.1, e.2.1, e.2.2⟩))
        ⟨out.response_parts, out.function_calls_made, out.invocations + 1⟩

/-- The fixed fallback answer. -/
def fallback_message : String := "I apologize, but I couldn\x27t generate a response."

/-- Observable result of `get_chat_response_with_functions`: the final
message, the function-call records, and the number of provider
invocations. -/
structure ChatFunctionsResult : Type where
  message : String
  function_calls : List FunctionCallRecord
  invocations : Nat

/-- Body of `get_chat_response_with_functions` (inside its `try`). -/
def get_chat_response_with_functions_core (provider : Nat → List Part)
    (exec : String → PyDict → PyDict) (message : String)
    (conversation_history : List ChatMessage) (max_function_calls : Nat)
    (files : List UploadedFile) : Except String ChatFunctionsResult :=
  if py_strip message = "" then Except.error "Message cannot be empty"
  else
    let fmap := build_file_map files
    let hist := format_conversation_history fmap conversation_history
    match build_user_parts message fmap hist.2 files with
    | Except.error e => Except.error e
    | Except.ok user_parts =>
      let contents := hist.1 ++ [⟨"user", user_parts⟩]
      let out := run_loop provider exec max_function_calls 0 contents []
      let final :=
        if out.response_parts.isEmpty then fallback_message
        else String.intercalate " " out.response_parts
      Except.ok ⟨final, out.function_calls_made, out.invocations⟩

/-- `get_chat_response_with_functions`: the outer `except` re-raises any
error wrapped as a `GeminiServiceError`. -/
def get_chat_response_with_functions (provider : Nat → List Part)
    (exec : String → PyDict → PyDict) (message : String)
    (conversation_history : List ChatMessage) (max_function_calls : Nat)
    (files : List UploadedFile) : Except String ChatFunctionsResult :=
  match get_chat_response_with_functions_core provider exec message
      conversation_history max_function_calls files with
  | Except.error e => Except.error ("Failed to get response with functions: " ++ e)
  | Except.ok r => Except.ok r

/-- Whether a part is an inline-binary part carrying exactly the payload
`pf` (data plus MIME type). -/
def bytes_payload_pred (pf : List Nat × String) : Part → Bool
  | Part.fromBytes d m => d == pf.1 && m == pf.2
  | _ => false

/-- Composition of a predicate with an optional value (false on `none`). -/
def opt_pred {α : Type} (p : α → Bool) : Option α → Bool
  | Option.some b => p b
  | Option.none => false

/-- Number of inline-binary parts carrying exactly the payload `pf`
(data plus MIME type) in a part list. -/
def count_bytes_parts (pf : List Nat × String) (ps : List Part) : Nat :=
  ps.countP (bytes_payload_pred pf)

/-- A byte string of exactly 10 MiB. -/
def ten_mb : List Nat := List.replicate max_file_size 0

/-- A byte string of 10 MiB plus one byte. -/
def ten_mb_plus_one : List Nat := List.replicate (max_file_size + 1) 0

/-! ### Helper lemmas about the orchestrator loop -/

theorem isEmpty_eq_false_of_ne_nil {α : Type} {l : List α} (h : l ≠ []) :
    l.isEmpty = false := by
  cases l with
  | nil => exact absurd rfl h
  | cons a l => rfl

theorem turn_function_calls_nil : turn_function_calls [] = [] := rfl

theorem ne_nil_of_turn_function_calls_ne_nil {parts : List Part}
    (h : turn_function_calls parts ≠ []) : parts ≠ [] := by
  intro hp
  exact h (hp ▸ turn_function_calls_nil)

theorem run_loop_invocations_le (p : Nat → List Part) (e : String → PyDict → PyDict) :
    ∀ fuel idx contents records,
      (run_loop p e fuel idx contents records).invocations ≤ fuel := by
  intro fuel
  induction fuel with
  | zero => intro idx c r; simp [run_loop]
  | succ n ih =>
    intro idx c r
    rw [run_loop]
    by_cases hp : (p idx).isEmpty = true
    · simp [hp]
    · simp only [Bool.not_eq_true] at hp
      by_cases hf : (turn_function_calls (p idx)).isEmpty = true
      · simp [hp, hf]
      · simp only [Bool.not_eq_true] at hf
        simp only [hp, hf, Bool.false_eq_true, if_false]
        have := ih (idx + 1)
          (c ++ [⟨"model", p idx⟩,
            ⟨"user", ((turn_function_calls (p idx)).map
              (fun fc => (fc.1, fc.2, e fc.1 fc.2))).map
              (fun x => Part.functionResponse x.1 x.2.2)⟩])
          (r ++ ((turn_function_calls (p idx)).map
            (fun fc => (fc.1, fc.2, e fc.1 fc.2))).map
            (fun x => (⟨x.1, x.2.1, x.2.2⟩ : FunctionCallRecord)))
        omega

theorem run_loop_all_fc (p : Nat → List Part) (e : String → PyDict → PyDict) :
    ∀ fuel idx contents records,
      (∀ j, j < fuel → turn_function_calls (p (idx + j)) ≠ []) →
      run_loop p e fuel idx contents records =
        ⟨[], records ++ records_range p e idx fuel, fuel⟩ := by
  intro fuel
  induction fuel with
  | zero => intro idx c r _; simp [run_loop, records_range]
  | succ n ih =>
    intro idx c r h
    have h0 : turn_function_calls (p idx) ≠ [] := by
      have := h 0 (Nat.succ_pos n)
      simpa using this
    have hp : (p idx).isEmpty = false :=
      isEmpty_eq_false_of_ne_nil (ne_nil_of_turn_function_calls_ne_nil h0)
    have hf : (turn_function_calls (p idx)).isEmpty = false :=
      isEmpty_eq_false_of_ne_nil h0
    rw [run_loop]
    simp only [hp, hf, Bool.false_eq_true, if_false]
    have hshift : ∀ j, j < n → turn_function_calls (p (idx + 1 + j)) ≠ [] := by
      intro j hj
      have heq : idx + 1 + j = idx + (j + 1) := by omega
      rw [heq]
      exact h (j + 1) (by omega)
    rw [ih (idx + 1) _ _ hshift]
    simp [records_range, turn_records, List.map_map, Function.comp, List.append_assoc]

theorem run_loop_break (p : Nat → List Part) (e : String → PyDict → PyDict) :
    ∀ k fuel idx contents records,
      k < fuel →
      (∀ j, j < k → turn_function_calls (p (idx + j)) ≠ []) →
      p (idx + k) ≠ [] →
      turn_function_calls (p (idx + k)) = [] →
      run_loop p e fuel idx contents records =
        ⟨turn_texts (p (idx + k)), records ++ records_range p e idx k, k + 1⟩ := by
  intro k
  induction k with
  | zero =>
    intro fuel idx c r hk _ hne hfc
    cases fuel with
    | zero => omega
    | succ n =>
      rw [run_loop]
      rw [Nat.add_zero] at hne hfc
      have hp : (p idx).isEmpty = false := isEmpty_eq_false_of_ne_nil hne
      have hf : (turn_function_calls (p idx)).isEmpty = true := by
        rw [hfc]; rfl
      simp [hp, hf, records_range]
  | succ m ih =>
    intro fuel idx c r hk hall hne hfc
    cases fuel with
    | zero => omega
    | succ n =>
      have h0 : turn_function_calls (p idx) ≠ [] := by
        have := hall 0 (Nat.succ_pos m)
        simpa using this
      have hp : (p idx).isEmpty = false :=
        isEmpty_eq_false_of_ne_nil (ne_nil_of_turn_function_calls_ne_nil h0)
      have hf : (turn_function_calls (p idx)).isEmpty = false :=
        isEmpty_eq_false_of_ne_nil h0
      rw [run_loop]
      simp only [hp, hf, Bool.false_eq_true, if_false]
      have hshift : ∀ j, j < m → turn_function_calls (p (idx + 1 + j)) ≠ [] := by
        intro j hj
        have heq : idx + 1 + j = idx + (j + 1) := by omega
        rw [heq]
        exact hall (j + 1) (by omega)
      have heq1 : idx + 1 + m = idx + (m + 1) := by omega
      rw [ih n (idx + 1) _ _ (by omega) hshift (heq1 ▸ hne) (heq1 ▸ hfc)]
      simp [heq1, records_range, turn_records, List.map_map, Function.comp,
        List.append_assoc]

theorem run_loop_degenerate (p : Nat → List Part) (e : String → PyDict → PyDict) :
    ∀ k fuel idx contents records,
      k < fuel →
      (∀ j, j < k → turn_function_calls (p (idx + j)) ≠ []) →
      p (idx + k) = [] →
      run_loop p e fuel idx contents records =
        ⟨[], records ++ records_range p e idx k, k + 1⟩ := by
  intro k
  induction k with
  | zero =>
    intro fuel idx c r hk _ hnil
    cases fuel with
    | zero => omega
    | succ n =>
      rw [run_loop]
      rw [Nat.add_zero] at hnil
      have hp : (p idx).isEmpty = true := by rw [hnil]; rfl
      simp [hp, records_range]
  | succ m ih =>
    intro fuel idx c r hk hall hnil
    cases fuel with
    | zero => omega
    | succ n =>
      have h0 : turn_function_calls (p idx) ≠ [] := by
        have := hall 0 (Nat.succ_pos m)
        simpa using this
      have hp : (p idx).isEmpty = false :=
        isEmpty_eq_false_of_ne_nil (ne_nil_of_turn_function_calls_ne_nil h0)
      have hf : (turn_function_calls (p idx)).isEmpty = false :=
        isEmpty_eq_false_of_ne_nil h0
      rw [run_loop]
      simp only [hp, hf, Bool.false_eq_true, if_false]
      have hshift : ∀ j, j < m → turn_function_calls (p (idx + 1 + j)) ≠ [] := by
        intro j hj
        have heq : idx + 1 + j = idx + (j + 1) := by omega
        rw [heq]
        exact hall (j + 1) (by omega)
      have heq1 : idx + 1 + m = idx + (m + 1) := by omega
      rw [ih n (idx + 1) _ _ (by omega) hshift (heq1 ▸ hnil)]
      simp [records_range, turn_records, List.map_map, Function.comp,
        List.append_assoc]

/-- Helper: the pipeline on the plain request (message `"hi"`, no history,
no files) reduces to the loop on the single formatted user turn. -/
theorem pipeline_simple (p : Nat → List Part) (e : String → PyDict → PyDict) (m : Nat) :
    get_chat_response_with_functions p e "hi" [] m [] =
      (let out := run_loop p e m 0 [⟨"user", [Part.text "hi"]⟩] []
       Except.ok ⟨(if out.response_parts.isEmpty then fallback_message
           else String.intercalate " " out.response_parts),
         out.function_calls_made, out.invocations⟩) := by
  rfl

/-- C1: for every request with a configured bound `maxFunctionCalls`
(between 1 and 10), `get_chat_response_with_functions` invokes the
provider at most `maxFunctionCalls` times before returning (on the error
paths the loop is never reached, so no invocation is made at all). -/
theorem orchestrator_invocation_bound (p : Nat → List Part)
    (e : String → PyDict → PyDict) (message : String)
    (history : List ChatMessage) (m : Nat) (files : List UploadedFile)
    (out : ChatFunctionsResult) (h1 : 1 ≤ m) (h10 : m ≤ 10)
    (hok : get_chat_response_with_functions p e message history m files = Except.ok out) :
    out.invocations ≤ m := by
  unfold get_chat_response_with_functions at hok
  cases hc : get_chat_response_with_functions_core p e message history m files with
  | error err => rw [hc] at hok; exact absurd hok (by simp)
  | ok r =>
    rw [hc] at hok
    injection hok with h
    subst h
    unfold get_chat_response_with_functions_core at hc
    by_cases hm : py_strip message = ""
    · rw [if_pos hm] at hc
      exact absurd hc (by simp)
    · rw [if_neg hm] at hc
      simp only [] at hc
      split at hc
      · exact absurd hc (by simp)
      · injection hc with h2
        rw [← h2]
        exact run_loop_invocations_le p e m 0 _ _

/-- Witness for C1 at a concrete request. -/
theorem orchestrator_invocation_bound_witness :
    (ChatFunctionsResult.mk fallback_message [] 1).invocations ≤ 5 :=
  orchestrator_invocation_bound (fun _ => []) (fun _ _ => []) "hi" [] 5 []
    ⟨fallback_message, [], 1⟩ (by decide) (by decide) rfl

/-- C2: if every scripted turn (up to `maxFunctionCalls`, itself between 1
and 10) contains a function-call part and never a text-only turn, the
orchestrator makes exactly `maxFunctionCalls` provider invocations and
returns the fixed fallback message. -/
theorem all_tool_call_turns_exhaust_budget (p : Nat → List Part)
    (e : String → PyDict → PyDict) (m : Nat) (h1 : 1 ≤ m) (h10 : m ≤ 10)
    (hfc : ∀ i, i < m → turn_function_calls (p i) ≠ []) :
    get_chat_response_with_functions p e "hi" [] m [] =
      Except.ok ⟨fallback_message, records_range p e 0 m, m⟩ := by
  rw [pipeline_simple]
  have h0 : ∀ j, j < m → turn_function_calls (p (0 + j)) ≠ [] := by
    intro j hj
    rw [Nat.zero_add]
    exact hfc j hj
  rw [run_loop_all_fc p e m 0 _ _ h0]
  rfl

/-- Witness for C2: two scripted all-tool-call turns with budget 2. -/
theorem all_tool_call_turns_exhaust_budget_witness :
    get_chat_response_with_functions (fun _ => [Part.functionCall "get_current_time" []])
        (fun _ _ => []) "hi" [] 2 [] =
      Except.ok ⟨fallback_message,
        [⟨"get_current_time", [], []⟩, ⟨"get_current_time", [], []⟩], 2⟩ :=
  all_tool_call_turns_exhaust_budget (fun _ => [Part.functionCall "get_current_time" []])
    (fun _ _ => []) 2 (by decide) (by decide)
    (fun _ _ => List.cons_ne_nil _ _)

/-- C3 counterexample: with budget 1 and a single turn carrying a
function call together with the text part `"Hello"`, the loop exhausts its
budget and the code returns the fallback string, not the text of the last
turn — the claim as stated predicts `"Hello"`. -/
theorem exhaustion_last_turn_text_counterexample :
    get_chat_response_with_functions
        (fun _ => [Part.functionCall "get_weather" [], Part.text "Hello"])
        (fun _ _ => []) "hi" [] 1 [] =
      Except.ok ⟨fallback_message, [⟨"get_weather", [], []⟩], 1⟩ ∧
    fallback_message ≠ "Hello" :=
  ⟨rfl, by decide⟩

/-- C3 amended: when the loop exhausts `maxFunctionCalls` iterations
without any tool-call-free turn, the final message is always the fallback
string — text parts of turns that carry tool calls are never accumulated
into the response. -/
theorem exhaustion_returns_fallback (p : Nat → List Part)
    (e : String → PyDict → PyDict) (m : Nat) (out : ChatFunctionsResult)
    (h1 : 1 ≤ m) (h10 : m ≤ 10)
    (hfc : ∀ i, i < m → turn_function_calls (p i) ≠ [])
    (hok : get_chat_response_with_functions p e "hi" [] m [] = Except.ok out) :
    out.message = fallback_message := by
  rw [pipeline_simple] at hok
  have h0 : ∀ j, j < m → turn_function_calls (p (0 + j)) ≠ [] := by
    intro j hj
    rw [Nat.zero_add]
    exact hfc j hj
  rw [run_loop_all_fc p e m 0 _ _ h0] at hok
  injection hok with h
  rw [← h]
  rfl

/-- Witness for C3 at a concrete one-turn script. -/
theorem exhaustion_returns_fallback_witness :
    (ChatFunctionsResult.mk fallback_message [⟨"convert_currency", [], []⟩] 1).message =
      fallback_message :=
  exhaustion_returns_fallback (fun _ => [Part.functionCall "convert_currency" []])
    (fun _ _ => []) 1 ⟨fallback_message, [⟨"convert_currency", [], []⟩], 1⟩
    (by decide) (by decide) (fun _ _ => List.cons_ne_nil _ _) rfl

/-- C4 counterexample: a turn with no function-call part and no truthy
text part (here a single inline-binary part) terminates the loop, but the
final message is the fallback string, not the empty concatenation of the
turn text parts that the claim as stated predicts. -/
theorem no_tool_call_turn_counterexample :
    turn_function_calls [Part.fromBytes [0] "image/png"] = [] ∧
    get_chat_response_with_functions (fun _ => [Part.fromBytes [0] "image/png"])
        (fun _ _ => []) "hi" [] 1 [] =
      Except.ok ⟨fallback_message, [], 1⟩ ∧
    fallback_message ≠
      String.intercalate " " (turn_texts [Part.fromBytes [0] "image/png"]) :=
  ⟨rfl, rfl, by decide⟩

/-- C4 amended: whenever a provider turn contains no function-call parts,
the orchestrator terminates with the final message equal to the turn
truthy text parts joined by a single space when there is at least one,
and the fallback string when there is none; in particular the scripted
provider whose first turn is one `get_current_time` call and whose second
turn is the text `"Done"` yields message `"Done"`, one function-call
record named `get_current_time`, after exactly 2 provider invocations. -/
theorem no_tool_call_turn_terminates (p : Nat → List Part)
    (e : String → PyDict → PyDict) (m k : Nat) (hk : k < m)
    (hfc : ∀ j, j < k → turn_function_calls (p j) ≠ [])
    (hne : p k ≠ []) (hnofc : turn_function_calls (p k) = []) :
    (get_chat_response_with_functions p e "hi" [] m [] =
      Except.ok ⟨(if (turn_texts (p k)).isEmpty then fallback_message
          else String.intercalate " " (turn_texts (p k))),
        records_range p e 0 k, k + 1⟩) ∧
    (get_chat_response_with_functions
        (fun i => if i = 0 then [Part.functionCall "get_current_time" []]
          else [Part.text "Done"])
        e "hi" [] 5 [] =
      Except.ok ⟨"Done", [⟨"get_current_time", [], e "get_current_time" []⟩], 2⟩) := by
  constructor
  · rw [pipeline_simple]
    have h0 : ∀ j, j < k → turn_function_calls (p (0 + j)) ≠ [] := by
      intro j hj
      rw [Nat.zero_add]
      exact hfc j hj
    rw [run_loop_break p e k m 0 _ _ hk h0
      (by rw [Nat.zero_add]; exact hne) (by rw [Nat.zero_add]; exact hnofc)]
    rw [Nat.zero_add]
    rfl
  · rw [pipeline_simple]
    rw [run_loop_break _ e 1 5 0 _ _ (by omega)
      (by
        intro j hj
        have hj0 : j = 0 := by omega
        subst hj0
        exact fun hcontra => by simp [turn_function_calls, part_function_call] at hcontra)
      (by exact List.cons_ne_nil _ _)
      (by rfl)]
    rfl

/-- Witness for C4 at a concrete text-only first turn. -/
theorem no_tool_call_turn_terminates_witness :
    (get_chat_response_with_functions (fun _ => [Part.text "OK"])
        (fun _ _ => []) "hi" [] 3 [] =
      Except.ok ⟨"OK", [], 1⟩) ∧
    (get_chat_response_with_functions
        (fun i => if i = 0 then [Part.functionCall "get_current_time" []]
          else [Part.text "Done"])
        (fun _ _ => []) "hi" [] 5 [] =
      Except.ok ⟨"Done", [⟨"get_current_time", [], []⟩], 2⟩) :=
  no_tool_call_turn_terminates (fun _ => [Part.text "OK"]) (fun _ _ => []) 3 0
    (by decide) (fun j hj => absurd hj (by omega))
    (List.cons_ne_nil _ _) rfl

/-- C5: a degenerate provider response (no candidates or no parts) on any
iteration terminates the orchestrator without an error, with the fallback
message and the function-call records accumulated so far. -/
theorem degenerate_turn_terminates (p : Nat → List Part)
    (e : String → PyDict → PyDict) (m k : Nat) (hk : k < m)
    (hfc : ∀ j, j < k → turn_function_calls (p j) ≠ [])
    (hdeg : p k = []) :
    get_chat_response_with_functions p e "hi" [] m [] =
      Except.ok ⟨fallback_message, records_range p e 0 k, k + 1⟩ := by
  rw [pipeline_simple]
  have h0 : ∀ j, j < k → turn_function_calls (p (0 + j)) ≠ [] := by
    intro j hj
    rw [Nat.zero_add]
    exact hfc j hj
  rw [run_loop_degenerate p e k m 0 _ _ hk h0 (by rw [Nat.zero_add]; exact hdeg)]
  rfl

/-- Witness for C5: one tool-call turn, then an empty response. -/
theorem degenerate_turn_terminates_witness :
    get_chat_response_with_functions
        (fun i => if i = 0 then [Part.functionCall "get_weather" []] else [])
        (fun _ _ => []) "hi" [] 3 [] =
      Except.ok ⟨fallback_message, [⟨"get_weather", [], []⟩], 2⟩ :=
  degenerate_turn_terminates
    (fun i => if i = 0 then [Part.functionCall "get_weather" []] else [])
    (fun _ _ => []) 3 1 (by decide)
    (by
      intro j hj
      have hj0 : j = 0 := by omega
      subst hj0
      exact fun hcontra => by simp [turn_function_calls, part_function_call] at hcontra)
    rfl

/-! ### Formatter lemmas -/

theorem eq_nil_of_isEmpty_eq_true {α : Type} {l : List α} (h : l.isEmpty = true) :
    l = [] := by
  cases l with
  | nil => rfl
  | cons a l => exact absurd h (by simp)

theorem format_conversation_history_fst
    (fmap : List (String × (List Nat × String))) (msgs : List ChatMessage) :
    (format_conversation_history fmap msgs).1 =
      msgs.filterMap (format_message fmap) := by
  induction msgs with
  | nil => rfl
  | cons msg rest ih =>
    simp only [format_conversation_history, List.filterMap_cons]
    cases h : format_message fmap msg with
    | none => simpa using ih
    | some c => simpa using ih

theorem format_conversation_history_snd
    (fmap : List (String × (List Nat × String))) (msgs : List ChatMessage) :
    (format_conversation_history fmap msgs).2 =
      msgs.flatMap (matched_names fmap) := by
  induction msgs with
  | nil => rfl
  | cons msg rest ih =>
    simp only [format_conversation_history, List.flatMap_cons]
    simpa using ih

/-- C6: for every registry mapping, function name and argument mapping,
`execute_function` returns a plain dict and never raises (its type is
total while tool implementations may fail): an unknown name yields an
error-tagged dict, a raising implementation yields
`{"success": False, "error": e}`, a succeeding one
`{"success": True, "result": r}`. -/
theorem execute_function_never_raises (functions : List (String × ToolImpl))
    (name : String) (params : PyDict) :
    (map_lookup functions name = Option.none →
      error_tagged (execute_function functions name params)) ∧
    (∀ f : ToolImpl, map_lookup functions name = Option.some f →
      (∀ e, f params = Except.error e →
        execute_function functions name params =
          [("success", PyVal.bool false), ("error", PyVal.str e)]) ∧
      (∀ r, f params = Except.ok r →
        execute_function functions name params =
          [("success", PyVal.bool true), ("result", r)])) := by
  refine ⟨?_, ?_⟩
  · intro hnone
    unfold execute_function
    rw [hnone]
    exact ⟨PyVal.str ("Function \x27" ++ name ++ "\x27 not found"),
      List.mem_singleton.mpr rfl⟩
  · intro f hsome
    refine ⟨?_, ?_⟩
    · intro e he
      unfold execute_function
      rw [hsome]
      dsimp only
      rw [he]
    · intro r hr
      unfold execute_function
      rw [hsome]
      dsimp only
      rw [hr]

/-- Witness for C6: an unknown tool name and a raising tool. -/
theorem execute_function_never_raises_witness :
    error_tagged (execute_function
      [("boom", fun _ => Except.error "division by zero")] "nonexistent_tool" []) ∧
    execute_function [("boom", fun _ => Except.error "division by zero")] "boom" [] =
      [("success", PyVal.bool false), ("error", PyVal.str "division by zero")] :=
  ⟨(execute_function_never_raises
      [("boom", fun _ => Except.error "division by zero")] "nonexistent_tool" []).1 rfl,
   ((execute_function_never_raises
      [("boom", fun _ => Except.error "division by zero")] "boom" []).2
      (fun _ => Except.error "division by zero") rfl).1 "division by zero" rfl⟩

/-- C7: formatting a history of `N` messages yields at most `N` content
entries, in the relative order of the input (the output is the
`filterMap` of the per-message formatter over the input list), and a
message with empty text whose attachments all miss the uploaded-file map
is omitted entirely. -/
theorem format_history_length_order_omission
    (fmap : List (String × (List Nat × String))) (msgs : List ChatMessage)
    (msg : ChatMessage) (hcontent : msg.content = "")
    (hatt : ∀ a ∈ msg.attachments, map_lookup fmap a.name = Option.none) :
    ((format_conversation_history fmap msgs).1).length ≤ msgs.length ∧
    (format_conversation_history fmap msgs).1 =
      msgs.filterMap (format_message fmap) ∧
    format_message fmap msg = Option.none := by
  refine ⟨?_, format_conversation_history_fst fmap msgs, ?_⟩
  · rw [format_conversation_history_fst]
    exact List.length_filterMap_le _ _
  · have hparts : message_parts fmap msg = [] := by
      unfold message_parts
      rw [if_pos hcontent, List.nil_append, List.filterMap_eq_nil_iff]
      intro a ha
      rw [hatt a ha]
      rfl
    unfold format_message
    rw [hparts]
    rfl

/-- Witness for C7: a two-message history and a zero-part message. -/
theorem format_history_length_order_omission_witness :
    ((format_conversation_history [("x", ([1], "image/png"))]
      [⟨"user", "hello", []⟩, ⟨"assistant", "", []⟩]).1).length ≤ 2 ∧
    (format_conversation_history [("x", ([1], "image/png"))]
      [⟨"user", "hello", []⟩, ⟨"assistant", "", []⟩]).1 =
      [⟨"user", "hello", []⟩, ⟨"assistant", "", []⟩].filterMap
        (format_message [("x", ([1], "image/png"))]) ∧
    format_message [("x", ([1], "image/png"))]
      ⟨"user", "", [⟨"i", "y", 1, "image/png", "image"⟩]⟩ = Option.none :=
  format_history_length_order_omission [("x", ([1], "image/png"))]
    [⟨"user", "hello", []⟩, ⟨"assistant", "", []⟩]
    ⟨"user", "", [⟨"i", "y", 1, "image/png", "image"⟩]⟩ rfl
    (by decide)

/-- Helper: one step of `process_new_files` on a fresh (unconsumed,
size-acceptable) file. -/
theorem process_new_files_cons_fresh (fmap : List (String × (List Nat × String)))
    (processed : List String) (f : UploadedFile) (rest : List UploadedFile)
    (hname : f.filename ≠ "") (hnp : f.filename ∉ processed)
    (cm : List Nat × String) (hcm : (map_lookup fmap f.filename).getD ([], "") = cm)
    (hsize : ¬ cm.1.length > max_file_size) :
    process_new_files fmap processed (f :: rest) =
      (match process_new_files fmap processed rest with
       | Except.error e => Except.error e
       | Except.ok parts =>
         if py_startswith cm.2 "image/" || py_startswith cm.2 "audio/" then
           Except.ok (Part.fromBytes cm.1 cm.2 :: parts)
         else
           Except.ok parts) := by
  simp only [process_new_files]
  rw [if_pos ⟨hname, hnp⟩, hcm, if_neg hsize]

/-- Helper: a failing `build_user_parts` makes the whole request fail with
the wrapped service-level error and no partial result. -/
theorem pipeline_error_of_user_parts (p : Nat → List Part)
    (e : String → PyDict → PyDict) (message : String)
    (history : List ChatMessage) (m : Nat) (files : List UploadedFile)
    (err : String) (hmsg : ¬ py_strip message = "")
    (herr : build_user_parts message (build_file_map files)
        (format_conversation_history (build_file_map files) history).2 files =
      Except.error err) :
    get_chat_response_with_functions p e message history m files =
      Except.error ("Failed to get response with functions: " ++ err) := by
  unfold get_chat_response_with_functions get_chat_response_with_functions_core
  rw [if_neg hmsg]
  dsimp only
  rw [herr]

/-- C9: a newly uploaded file of exactly 10 MiB is accepted into the
formatted content; one byte more fails the whole request with the wrapped
size-limit error and no partial result; a `FileAttachment` declaring
10 MiB + 1 bytes is rejected by validation while exactly 10 MiB is
accepted. -/
theorem attachment_size_limit_boundary :
    (build_user_parts "hi" [("big.png", (ten_mb, "image/png"))] []
        [⟨"big.png", ten_mb, "image/png"⟩] =
      Except.ok [Part.text "hi", Part.fromBytes ten_mb "image/png"]) ∧
    (get_chat_response_with_functions (fun _ => []) (fun _ _ => []) "hi" []
        5 [⟨"big.png", ten_mb_plus_one, "image/png"⟩] =
      Except.error
        "Failed to get response with functions: File big.png exceeds maximum size of 10485760 bytes") ∧
    (mk_file_attachment "a1" "big.png" (max_file_size + 1) "image/png" "image" =
      Except.error "File size exceeds maximum limit of 10485760 bytes") ∧
    (mk_file_attachment "a1" "big.png" max_file_size "image/png" "image" =
      Except.ok ⟨"a1", "big.png", max_file_size, "image/png", "image"⟩) := by
  refine ⟨?_, ?_, ?_, ?_⟩
  · unfold build_user_parts
    rw [process_new_files_cons_fresh [("big.png", (ten_mb, "image/png"))] []
      ⟨"big.png", ten_mb, "image/png"⟩ [] (by decide) (by decide)
      (ten_mb, "image/png") rfl (by simp [ten_mb])]
    rfl
  · have hpn : process_new_files [("big.png", (ten_mb_plus_one, "image/png"))] []
        [⟨"big.png", ten_mb_plus_one, "image/png"⟩] =
        Except.error "File big.png exceeds maximum size of 10485760 bytes" := by
      simp only [process_new_files]
      rw [if_pos ⟨by decide, by decide⟩]
      have hcm : (map_lookup [("big.png", (ten_mb_plus_one, "image/png"))]
          "big.png").getD ([], "") = (ten_mb_plus_one, "image/png") := rfl
      rw [hcm]
      have hbig : (ten_mb_plus_one, "image/png").1.length > max_file_size := by
        simp [ten_mb_plus_one]
      rw [if_pos hbig]
      exact congrArg Except.error (by decide)
    have hbup : build_user_parts "hi"
        (build_file_map [⟨"big.png", ten_mb_plus_one, "image/png"⟩])
        (format_conversation_history
          (build_file_map [⟨"big.png", ten_mb_plus_one, "image/png"⟩]) []).2
        [⟨"big.png", ten_mb_plus_one, "image/png"⟩] =
        Except.error "File big.png exceeds maximum size of 10485760 bytes" := by
      have h1 : build_file_map [⟨"big.png", ten_mb_plus_one, "image/png"⟩] =
          [("big.png", (ten_mb_plus_one, "image/png"))] := rfl
      rw [h1]
      have h2 : (format_conversation_history
          [("big.png", (ten_mb_plus_one, "image/png"))] []).2 = [] := rfl
      rw [h2]
      unfold build_user_parts
      rw [hpn]
      rfl
    rw [pipeline_error_of_user_parts (fun _ => []) (fun _ _ => []) "hi" [] 5
      [⟨"big.png", ten_mb_plus_one, "image/png"⟩] _ (by decide) hbup]
    exact congrArg Except.error (by decide)
  · unfold mk_file_attachment
    rw [if_pos (by decide)]
    exact congrArg Except.error (by decide)
  · unfold mk_file_attachment
    rw [if_neg (by decide), if_neg (by decide)]

/-- C10: when every fresh new upload passes the 10 MB size check,
`process_new_files` succeeds, and its output is exactly the binary parts
of the fresh uploads whose mapped content type starts with `image/` or
`audio/` — any other MIME type is silently omitted (no error, no part). -/
theorem unsupported_mime_silently_skipped (fmap : List (String × (List Nat × String)))
    (processed : List String) (files : List UploadedFile)
    (hsize : ∀ f ∈ files, f.filename ≠ "" → f.filename ∉ processed →
      ((map_lookup fmap f.filename).getD ([], "")).1.length ≤ max_file_size) :
    process_new_files fmap processed files =
      Except.ok (files.filterMap (fun f =>
        if f.filename ≠ "" ∧ f.filename ∉ processed then
          (if py_startswith ((map_lookup fmap f.filename).getD ([], "")).2 "image/" ||
              py_startswith ((map_lookup fmap f.filename).getD ([], "")).2 "audio/" then
            Option.some (Part.fromBytes ((map_lookup fmap f.filename).getD ([], "")).1
              ((map_lookup fmap f.filename).getD ([], "")).2)
          else Option.none)
        else Option.none)) := by
  revert hsize
  induction files with
  | nil => intro _; rfl
  | cons f rest ih =>
    intro hsize
    have hrest := fun g hg h1 h2 => hsize g (List.mem_cons_of_mem f hg) h1 h2
    simp only [process_new_files, List.filterMap_cons]
    by_cases hc : f.filename ≠ "" ∧ f.filename ∉ processed
    · rw [if_pos hc, if_pos hc]
      have hs : ¬ ((map_lookup fmap f.filename).getD ([], "")).1.length >
          max_file_size := by
        have := hsize f (List.mem_cons_self f rest) hc.1 hc.2
        omega
      rw [if_neg hs, ih hrest]
      dsimp only
      by_cases hm : (py_startswith ((map_lookup fmap f.filename).getD ([], "")).2
          "image/" || py_startswith ((map_lookup fmap f.filename).getD ([], "")).2
          "audio/") = true
      · rw [if_pos hm, if_pos hm]
      · rw [if_neg hm, if_neg hm]
    · rw [if_neg hc, if_neg hc, ih hrest]

/-- Witness for C10: a PDF upload is skipped, an image upload kept, and no
error is raised. -/
theorem unsupported_mime_silently_skipped_witness :
    process_new_files
        [("doc.pdf", ([1, 2], "application/pdf")), ("pic.png", ([9], "image/png"))] []
        [⟨"doc.pdf", [1, 2], "application/pdf"⟩, ⟨"pic.png", [9], "image/png"⟩] =
      Except.ok [Part.fromBytes [9] "image/png"] :=
  unsupported_mime_silently_skipped
    [("doc.pdf", ([1, 2], "application/pdf")), ("pic.png", ([9], "image/png"))] []
    [⟨"doc.pdf", [1, 2], "application/pdf"⟩, ⟨"pic.png", [9], "image/png"⟩]
    (by decide)

/-- Helper: omitted messages contribute no parts, so the parts of the
formatted history are the concatenated per-message parts. -/
theorem formatted_parts_flatMap (fmap : List (String × (List Nat × String)))
    (msgs : List ChatMessage) :
    (((format_conversation_history fmap msgs).1).flatMap (fun c => c.parts)) =
      msgs.flatMap (message_parts fmap) := by
  induction msgs with
  | nil => rfl
  | cons msg rest ih =>
    simp only [format_conversation_history, List.flatMap_cons]
    by_cases hp : (message_parts fmap msg).isEmpty = true
    · have hemp := eq_nil_of_isEmpty_eq_true hp
      have hfm : format_message fmap msg = Option.none := by
        unfold format_message
        rw [if_pos hp]
      rw [hfm]
      simp [hemp, ih]
    · have hfm : format_message fmap msg =
          Option.some ⟨if msg.role = "user" then "user" else "model",
            message_parts fmap msg⟩ := by
        unfold format_message
        rw [if_neg hp]
      rw [hfm]
      simp [ih]

/-- Helper: counting after a `filterMap` is counting the preimages. -/
theorem countP_filterMap_eq {α β : Type} (p : β → Bool) (g : α → Option β)
    (l : List α) :
    (l.filterMap g).countP p = l.countP (fun a => opt_pred p (g a)) := by
  induction l with
  | nil => rfl
  | cons a l ih =>
    rw [List.filterMap_cons]
    cases h : g a with
    | none => simp [h, ih, List.countP_cons, opt_pred]
    | some b => simp [h, ih, List.countP_cons, opt_pred]

/-- Helper: under a payload-injective file map, an attachment produces the
payload `pf` exactly when it is named `f`. -/
theorem attachment_payload_pred (fmap : List (String × (List Nat × String)))
    (f : String) (pf : List Nat × String)
    (hf : map_lookup fmap f = Option.some pf)
    (huniq : ∀ g, g ≠ f → map_lookup fmap g ≠ Option.some pf)
    (a : FileAttachment) :
    opt_pred (bytes_payload_pred pf)
      ((map_lookup fmap a.name).map (fun cm => Part.fromBytes cm.1 cm.2)) =
      (a.name == f) := by
  by_cases hn : a.name = f
  · rw [hn, hf]
    simp [opt_pred, bytes_payload_pred]
  · have hne := huniq a.name hn
    have h2 : (a.name == f) = false := by simp [hn]
    rw [h2]
    cases hl : map_lookup fmap a.name with
    | none => rfl
    | some cm =>
      rw [hl] at hne
      have hcm : cm ≠ pf := fun hcontra => hne (by rw [hcontra])
      dsimp only [Option.map, opt_pred, bytes_payload_pred]
      by_cases h3 : cm.1 = pf.1
      · by_cases h4 : cm.2 = pf.2
        · exact absurd (Prod.ext_iff.mpr ⟨h3, h4⟩) hcm
        · simp [h3, h4]
      · simp [h3]

/-- Helper: per-message payload count equals the number of attachments
named `f` on that message. -/
theorem count_bytes_message_parts (fmap : List (String × (List Nat × String)))
    (msg : ChatMessage) (f : String) (pf : List Nat × String)
    (hf : map_lookup fmap f = Option.some pf)
    (huniq : ∀ g, g ≠ f → map_lookup fmap g ≠ Option.some pf) :
    count_bytes_parts pf (message_parts fmap msg) =
      msg.attachments.countP (fun a => a.name == f) := by
  unfold count_bytes_parts message_parts
  rw [List.countP_append, countP_filterMap_eq]
  have htext : (if msg.content = "" then ([] : List Part)
      else [Part.text msg.content]).countP (bytes_payload_pred pf) = 0 := by
    by_cases hcnt : msg.content = "" <;> simp [hcnt, bytes_payload_pred]
  rw [htext, Nat.zero_add]
  exact List.countP_congr (fun a _ => by
    rw [attachment_payload_pred fmap f pf hf huniq a])

/-- Helper: history-wide payload count equals the number of history
attachments named `f`. -/
theorem count_bytes_flatMap (fmap : List (String × (List Nat × String)))
    (msgs : List ChatMessage) (f : String) (pf : List Nat × String)
    (hf : map_lookup fmap f = Option.some pf)
    (huniq : ∀ g, g ≠ f → map_lookup fmap g ≠ Option.some pf) :
    count_bytes_parts pf (msgs.flatMap (message_parts fmap)) =
      (msgs.flatMap (fun m => m.attachments)).countP (fun a => a.name == f) := by
  induction msgs with
  | nil => rfl
  | cons msg rest ih =>
    simp only [List.flatMap_cons]
    unfold count_bytes_parts at ih ⊢
    rw [List.countP_append, List.countP_append]
    have hmsg := count_bytes_message_parts fmap msg f pf hf huniq
    unfold count_bytes_parts at hmsg
    omega

/-- Helper: a history attachment named `f` that is matched by the file map
puts `f` into the consumed-filename set. -/
theorem mem_processed_of_attachment (fmap : List (String × (List Nat × String)))
    (msgs : List ChatMessage) (f : String) (pf : List Nat × String)
    (hf : map_lookup fmap f = Option.some pf)
    (hex : ∃ a ∈ msgs.flatMap (fun m => m.attachments), (a.name == f) = true) :
    f ∈ (format_conversation_history fmap msgs).2 := by
  obtain ⟨a, ha, hname⟩ := hex
  rw [format_conversation_history_snd, List.mem_flatMap]
  rw [List.mem_flatMap] at ha
  obtain ⟨msg, hmsg, hamem⟩ := ha
  refine ⟨msg, hmsg, ?_⟩
  unfold matched_names
  rw [List.mem_filterMap]
  refine ⟨a, hamem, ?_⟩
  have hnf : a.name = f := by simpa using hname
  rw [hnf, hf]
  rfl

/-- Helper: the new-message step contributes no part with payload `pf`
when `f` was consumed by history formatting. -/
theorem process_new_files_count_zero (fmap : List (String × (List Nat × String)))
    (processed : List String) (f : String) (pf : List Nat × String)
    (hf : map_lookup fmap f = Option.some pf)
    (huniq : ∀ g, g ≠ f → map_lookup fmap g ≠ Option.some pf)
    (hproc : f ∈ processed) :
    ∀ files ps, process_new_files fmap processed files = Except.ok ps →
      count_bytes_parts pf ps = 0 := by
  intro files
  induction files with
  | nil =>
    intro ps hok
    injection hok with h
    rw [← h]
    rfl
  | cons g rest ih =>
    intro ps hok
    simp only [process_new_files] at hok
    by_cases hc : g.filename ≠ "" ∧ g.filename ∉ processed
    · rw [if_pos hc] at hok
      by_cases hbig : ((map_lookup fmap g.filename).getD ([], "")).1.length >
          max_file_size
      · rw [if_pos hbig] at hok
        exact absurd hok (by simp)
      · rw [if_neg hbig] at hok
        cases hrec : process_new_files fmap processed rest with
        | error e =>
          rw [hrec] at hok
          exact absurd hok (by simp)
        | ok parts =>
          rw [hrec] at hok
          dsimp only at hok
          have hgf : g.filename ≠ f := by
            intro hcontra
            exact hc.2 (hcontra ▸ hproc)
          have hcount : count_bytes_parts pf parts = 0 := ih parts hrec
          by_cases hm : (py_startswith ((map_lookup fmap g.filename).getD
              ([], "")).2 "image/" ||
              py_startswith ((map_lookup fmap g.filename).getD ([], "")).2
              "audio/") = true
          · rw [if_pos hm] at hok
            injection hok with h
            rw [← h]
            unfold count_bytes_parts at hcount ⊢
            rw [List.countP_cons]
            have hhead : bytes_payload_pred pf
                (Part.fromBytes ((map_lookup fmap g.filename).getD ([], "")).1
                  ((map_lookup fmap g.filename).getD ([], "")).2) = false := by
              cases hl : map_lookup fmap g.filename with
              | none =>
                rw [hl] at hm
                exact absurd hm (by decide)
              | some cm =>
                have hne := huniq g.filename hgf
                rw [hl] at hne
                have hcm : cm ≠ pf := fun hcontra => hne (by rw [hcontra])
                dsimp only [Option.getD, bytes_payload_pred]
                by_cases h3 : cm.1 = pf.1
                · by_cases h4 : cm.2 = pf.2
                  · exact absurd (Prod.ext_iff.mpr ⟨h3, h4⟩) hcm
                  · simp [h3, h4]
                · simp [h3]
            rw [hhead]
            simp [hcount]
          · rw [if_neg hm] at hok
            injection hok with h
            rw [← h]
            exact hcount
    · rw [if_neg hc] at hok
      exact ih ps hok

/-- C8 counterexample: with a single uploaded file `a.png` whose filename
is referenced by one attachment in each of two history messages, the
binary payload is attached twice across the formatted history plus the
new user message (which correctly skips it), refuting the claimed
exactly-once property. -/
theorem attach_once_counterexample :
    count_bytes_parts ([7], "image/png")
      ((((format_conversation_history (build_file_map [⟨"a.png", [7], "image/png"⟩])
        [⟨"user", "first", [⟨"1", "a.png", 7, "image/png", "image"⟩]⟩,
         ⟨"user", "second", [⟨"2", "a.png", 7, "image/png", "image"⟩]⟩]).1).flatMap
        (fun c => c.parts)) ++ [Part.text "msg"]) = 2 ∧
    build_user_parts "msg" (build_file_map [⟨"a.png", [7], "image/png"⟩])
      (format_conversation_history (build_file_map [⟨"a.png", [7], "image/png"⟩])
        [⟨"user", "first", [⟨"1", "a.png", 7, "image/png", "image"⟩]⟩,
         ⟨"user", "second", [⟨"2", "a.png", 7, "image/png", "image"⟩]⟩]).2
      [⟨"a.png", [7], "image/png"⟩] = Except.ok [Part.text "msg"] ∧
    (2 : Nat) ≠ 1 :=
  ⟨rfl, rfl, by decide⟩

/-- C8 amended: when an uploaded file's filename `f` is referenced by
exactly one attachment occurrence across the conversation history (and no
other filename maps to the same payload), its binary payload is attached
exactly once across the formatted history plus the new user message
combined: history formatting records `f` as consumed and the new-message
step skips every file whose filename was consumed. In general each
history reference attaches the payload once, so `k` references yield `k`
copies. -/
theorem attach_once_amended (fmap : List (String × (List Nat × String)))
    (msgs : List ChatMessage) (files : List UploadedFile) (f : String)
    (pf : List Nat × String) (message : String) (userParts : List Part)
    (hf : map_lookup fmap f = Option.some pf)
    (huniq : ∀ g, g ≠ f → map_lookup fmap g ≠ Option.some pf)
    (hone : (msgs.flatMap (fun m => m.attachments)).countP
      (fun a => a.name == f) = 1)
    (hok : build_user_parts message fmap
        (format_conversation_history fmap msgs).2 files = Except.ok userParts) :
    count_bytes_parts pf
      ((((format_conversation_history fmap msgs).1).flatMap (fun c => c.parts)) ++
        userParts) = 1 := by
  unfold build_user_parts at hok
  cases hpn : process_new_files fmap (format_conversation_history fmap msgs).2
      files with
  | error e =>
    rw [hpn] at hok
    exact absurd hok (by simp [Except.map])
  | ok ps =>
    rw [hpn] at hok
    dsimp only [Except.map] at hok
    injection hok with h
    rw [← h]
    have hhist : count_bytes_parts pf
        (((format_conversation_history fmap msgs).1).flatMap (fun c => c.parts)) =
        1 := by
      rw [formatted_parts_flatMap, count_bytes_flatMap fmap msgs f pf hf huniq]
      exact hone
    have hproc : f ∈ (format_conversation_history fmap msgs).2 := by
      apply mem_processed_of_attachment fmap msgs f pf hf
      have hpos : 0 < (msgs.flatMap (fun m => m.attachments)).countP
          (fun a => a.name == f) := by omega
      exact List.countP_pos_iff.mp hpos
    have hps : count_bytes_parts pf ps = 0 :=
      process_new_files_count_zero fmap _ f pf hf huniq hproc files ps hpn
    unfold count_bytes_parts at hhist hps ⊢
    rw [List.countP_append, List.countP_cons, hhist, hps]
    simp [bytes_payload_pred]

/-- Witness for C8: one history reference plus a re-upload of the same
file attaches its payload exactly once. -/
theorem attach_once_amended_witness :
    count_bytes_parts ([7], "image/png")
      ((((format_conversation_history (build_file_map [⟨"a.png", [7], "image/png"⟩])
        [⟨"user", "hello", [⟨"1", "a.png", 7, "image/png", "image"⟩]⟩]).1).flatMap
        (fun c => c.parts)) ++ [Part.text "msg"]) = 1 :=
  attach_once_amended (build_file_map [⟨"a.png", [7], "image/png"⟩])
    [⟨"user", "hello", [⟨"1", "a.png", 7, "image/png", "image"⟩]⟩]
    [⟨"a.png", [7], "image/png"⟩] "a.png" ([7], "image/png") "msg"
    [Part.text "msg"] rfl
    (by
      intro g hg hcontra
      have hbf : build_file_map [⟨"a.png", [7], "image/png"⟩] =
          [("a.png", ([7], "image/png"))] := rfl
      rw [hbf] at hcontra
      simp only [map_lookup] at hcontra
      by_cases h : "a.png" = g
      · exact hg h.symm
      · rw [if_neg h] at hcontra
        exact Option.noConfusion hcontra)
    rfl rfl

end Backend
